import Mathlib

/-!
Verification of the transformer-llguidance bridge library.

This file shallow-embeds the library's pure computational core:

* src/tokenizer-bridge.ts — vocabulary normalization (extractTokenizerData,
  parseTokenizerJson, detectModelType, mapToRecord);
* src/parser.ts — the grammar-to-wire-schema translation (convertGrammar);
* src/processor.ts — the speculative masking controller
  (GuidanceLogitsProcessor: process, getTopK, maskAllExcept, applyBitmask,
  onToken, reset, getGeneratedTokens).

Modelling conventions:

* JS numbers used as logit values are modelled as rationals (ℚ); the input
  logits vector is a `List ℚ` of finite values, and the output vector is a
  `List XFloat`, where `XFloat` adds the distinguished negative-infinity
  value that masking writes.  NaN payloads are outside the model.
* JS objects with optional fields are structures with `Option` fields;
  an absent (`undefined`) field is `none`.
* Fallible functions return `Except BridgeError _`; the two throw sites of
  tokenizer-bridge.ts become the two `BridgeError` constructors.
* A `Record<string, number>` vocabulary is modelled as an association list
  `List (String × Nat)`.  A JS `Map` and a plain record both normalize to
  the same entry list, so `mapToRecord` is the identity on this model.
* `Array.prototype.sort` is stable (ECMAScript 2019); a stable sort's
  output is uniquely determined by the comparator and the input order, so
  `sortDesc` realizes it by stable insertion sort with the comparator
  `(a, b) => b.logit - a.logit` of getTopK, i.e. descending by logit and
  preserving input (ascending-index) order on ties.
-/

/-- Extended logit value: a finite rational or the negative infinity that
masking writes into the output buffer (`-Infinity` in the source). -/
inductive XFloat where
  | negInf
  | val (q : ℚ)
deriving DecidableEq, Repr

/-- A vocabulary record: token string to id, as an entry list. -/
abbrev Vocab : Type := List (String × Nat)

/-- An added-token entry as it arrives from a tokenizer object or a fetched
tokenizer.json document: optional flags may be absent. -/
structure AddedTokenIn where
  id : Nat
  content : String
  single_word : Option Bool
  lstrip : Option Bool
  rstrip : Option Bool
  normalized : Option Bool
  special : Option Bool
deriving DecidableEq, Repr

/-- A normalized added-token entry: every flag defaulted. -/
structure AddedToken where
  id : Nat
  content : String
  single_word : Bool
  lstrip : Bool
  rstrip : Bool
  normalized : Bool
  special : Bool
deriving DecidableEq, Repr

/-- The canonical TokenizerData record produced by both normalization paths.
The added_tokens field stays optional: parseTokenizerJson propagates an
absent added_tokens list, while extractTokenizerData always supplies one. -/
structure TokenizerData where
  vocab : Vocab
  merges : List String
  added_tokens : Option (List AddedToken)
  model_type : String
deriving DecidableEq, Repr

/-- The nested model field of an in-memory transformers tokenizer. -/
structure TransformersModel where
  vocab : Option Vocab
  merges : Option (List String)
deriving DecidableEq, Repr

/-- A transformers tokenizer instance, as the minimal interface the bridge
reads: nested model, top-level vocab, added tokens, and the optional
getVocab accessor method. -/
structure TransformersTokenizer where
  model : Option TransformersModel
  vocab : Option Vocab
  added_tokens : Option (List AddedTokenIn)
  getVocab : Option (Unit → Vocab)

/-- The nested model field of a fetched tokenizer.json document; unlike the
in-memory shape it can also carry a declared type string. -/
structure TokenizerJsonModel where
  vocab : Option Vocab
  merges : Option (List String)
  type : Option String
deriving DecidableEq, Repr

/-- A fetched tokenizer.json document. -/
structure TokenizerJson where
  model : Option TokenizerJsonModel
  added_tokens : Option (List AddedTokenIn)
deriving DecidableEq, Repr

/-- Error taxonomy of tokenizer-bridge.ts: the throw in extractTokenizerData
(no vocabulary source) and the throw in parseTokenizerJson (missing
model.vocab). -/
inductive BridgeError where
  | vocabularyNotFoundError
  | malformedDescriptorError
deriving DecidableEq, Repr

/-- Function mapToRecord of tokenizer-bridge.ts: converts a Map or a plain
record to a plain record.  Both container shapes are the same entry list in
this model, so the conversion is the identity. -/
def mapToRecord (input : Vocab) : Vocab := input

/-- The per-entry added-token normalization shared by both paths of
tokenizer-bridge.ts: each absent optional flag is defaulted
(single_word/lstrip/rstrip/special to false, normalized to true). -/
def normalizeAddedToken (token : AddedTokenIn) : AddedToken :=
  { id := token.id
    content := token.content
    single_word := token.single_word.getD false
    lstrip := token.lstrip.getD false
    rstrip := token.rstrip.getD false
    normalized := token.normalized.getD true
    special := token.special.getD false }

/-- Function detectModelType of tokenizer-bridge.ts: classify as "bpe" when
model.merges is present and non-empty (an empty JS array is truthy, so the
length test decides), otherwise "unknown". -/
def detectModelType (tokenizer : TransformersTokenizer) : String :=
  match tokenizer.model.bind TransformersModel.merges with
  | some merges => if merges.length > 0 then "bpe" else "unknown"
  | none => "unknown"

/-- The vocabulary-resolution chain at the top of extractTokenizerData:
getVocab accessor first, then model.vocab, then the top-level vocab
property; none of the three present means the throw is reached. -/
def resolveVocab (tokenizer : TransformersTokenizer) : Option Vocab :=
  match tokenizer.getVocab with
  | some f => some (f ())
  | none =>
    match tokenizer.model.bind TransformersModel.vocab with
    | some v => some (mapToRecord v)
    | none =>
      match tokenizer.vocab with
      | some v => some (mapToRecord v)
      | none => none

/-- Function extractTokenizerData of tokenizer-bridge.ts: resolve the
vocabulary (throwing when no source is present), default merges to [],
normalize the added tokens entry-wise, and detect the model type. -/
def extractTokenizerData (tokenizer : TransformersTokenizer) :
    Except BridgeError TokenizerData :=
  match resolveVocab tokenizer with
  | none => .error .vocabularyNotFoundError
  | some vocab =>
    .ok
      { vocab := vocab
        merges := (tokenizer.model.bind TransformersModel.merges).getD []
        added_tokens := some ((tokenizer.added_tokens.getD []).map fun token =>
          { id := token.id
            content := token.content
            single_word := token.single_word.getD false
            lstrip := token.lstrip.getD false
            rstrip := token.rstrip.getD false
            normalized := token.normalized.getD true
            special := token.special.getD false })
        model_type := detectModelType tokenizer }

/-- Function parseTokenizerJson of tokenizer-bridge.ts: requires
model.vocab, defaults merges to [], maps the added tokens (propagating an
absent list), and copies the declared model.type, defaulting to
"unknown". -/
def parseTokenizerJson (data : TokenizerJson) : Except BridgeError TokenizerData :=
  match data.model.bind TokenizerJsonModel.vocab with
  | none => .error .malformedDescriptorError
  | some vocab =>
    .ok
      { vocab := vocab
        merges := (data.model.bind TokenizerJsonModel.merges).getD []
        added_tokens := data.added_tokens.map (List.map fun token =>
          { id := token.id
            content := token.content
            single_word := token.single_word.getD false
            lstrip := token.lstrip.getD false
            rstrip := token.rstrip.getD false
            normalized := token.normalized.getD true
            special := token.special.getD false })
        model_type := (data.model.bind TokenizerJsonModel.type).getD "unknown" }

/-- The Grammar tagged union of src/types.ts as consumed by
parser.ts: a JSON-schema payload (of an arbitrary schema type S), a regex
pattern, or a lark grammar with an optional start symbol. -/
inductive Grammar (S : Type) where
  | json_schema (schema : S)
  | regex (pattern : String)
  | lark (grammar : String) (startSymbol : Option String)
deriving DecidableEq

/-- One element of the wire-schema grammars list produced by
convertGrammar: the constructor names mirror the JSON keys used in
parser.ts (json_schema, rx, lark with start). -/
inductive GrammarSpecEntry (S : Type) where
  | json_schema (schema : S)
  | rx (pattern : String)
  | lark (grammar : String) (start : String)
deriving DecidableEq

/-- The wire schema handed to the oracle: an object with a grammars list. -/
structure WireGrammar (S : Type) where
  grammars : List (GrammarSpecEntry S)
deriving DecidableEq

/-- Method convertGrammar of parser.ts: the closed three-case translation
from a Grammar value to the oracle wire schema. -/
def convertGrammar {S : Type} : Grammar S → WireGrammar S
  | .json_schema schema => { grammars := [.json_schema schema] }
  | .regex pattern => { grammars := [.rx pattern] }
  | .lark grammar startSymbol => { grammars := [.lark grammar (startSymbol.getD "start")] }

/-- One entry of the indexed array built by getTopK of processor.ts. -/
structure TokenLogit where
  tokenId : Nat
  logit : ℚ
deriving DecidableEq, Repr

/-- Stable descending insertion step: x precedes, in input order, every
element of the list it is inserted into, so a stable descending sort must
place x before the first element whose logit does not exceed x's — in
particular before any element tying with x. -/
def insertDesc (x : TokenLogit) : List TokenLogit → List TokenLogit
  | [] => [x]
  | y :: ys => if y.logit ≤ x.logit then x :: y :: ys else y :: insertDesc x ys

/-- Stable sort by descending logit: the unique stable reordering produced
by the comparator (a, b) => b.logit - a.logit under Array.prototype.sort
(stable since ECMAScript 2019). -/
def sortDesc : List TokenLogit → List TokenLogit
  | [] => []
  | x :: xs => insertDesc x (sortDesc xs)

/-- The indexed array built by the loop in getTopK of processor.ts:
entry i pairs token id i with logits[i]. -/
def indexedLogits (logits : List ℚ) : List TokenLogit :=
  (List.range logits.length).map fun i => { tokenId := i, logit := logits.getD i 0 }

/-- Method getTopK of processor.ts: index, sort descending (stable), take
the first k entries. -/
def getTopK (logits : List ℚ) (k : Nat) : List TokenLogit :=
  (sortDesc (indexedLogits logits)).take k

/-- Method maskAllExcept of processor.ts: a fresh buffer filled with
negative infinity, with the allowed token's original logit written back at
its index. -/
def maskAllExcept (logits : List ℚ) (allowedToken : Nat) : List XFloat :=
  (List.range logits.length).map fun i =>
    if i = allowedToken then XFloat.val (logits.getD i 0) else XFloat.negInf

/-- Method applyBitmask of processor.ts: positions whose mask entry is 0
become negative infinity, all others keep their value.  An index beyond the
mask reads undefined, which the strict equality test against 0 rejects, so
the logit is kept; getD with default 1 models that. -/
def applyBitmask (logits : List ℚ) (mask : List Nat) : List XFloat :=
  (List.range logits.length).map fun i =>
    if mask.getD i 1 = 0 then XFloat.negInf else XFloat.val (logits.getD i 0)

/-- The read-only view of the parser that process consults: the per-token
membership query and the full-mask buffer the two parser reads return at
the current (unchanging) parser state. -/
structure ParserOracle where
  isTokenAllowed : Nat → Bool
  tokenMask : List Nat

/-- The token ids the speculation loop of process queries, in order: each
candidate in rank order up to and including the first allowed one, or all
candidates when none is allowed. -/
def takeThrough (allowed : Nat → Bool) : List TokenLogit → List Nat
  | [] => []
  | c :: cs => if allowed c.tokenId then [c.tokenId] else c.tokenId :: takeThrough allowed cs

/-- Method process of processor.ts, instrumented: the returned logits
buffer, together with the ghost trace of isTokenAllowed queries issued by
the speculation loop and the number of getTokenMask calls.  The loop over
getTopK returning maskAllExcept at the first allowed candidate is the
first-match search find?. -/
def processTrace (parser : ParserOracle) (k : Nat) (logits : List ℚ) :
    List XFloat × List Nat × Nat :=
  match (getTopK logits k).find? (fun c => parser.isTokenAllowed c.tokenId) with
  | some c =>
      (maskAllExcept logits c.tokenId,
       takeThrough parser.isTokenAllowed (getTopK logits k), 0)
  | none =>
      (applyBitmask logits parser.tokenMask,
       takeThrough parser.isTokenAllowed (getTopK logits k), 1)

/-- Method process of processor.ts: the returned constrained logits. -/
def process (parser : ParserOracle) (k : Nat) (logits : List ℚ) : List XFloat :=
  (processTrace parser k logits).1

/-- Ghost observation: the token ids process queried via isTokenAllowed. -/
def queriedTokens (parser : ParserOracle) (k : Nat) (logits : List ℚ) : List Nat :=
  (processTrace parser k logits).2.1

/-- Ghost observation: how many times process called getTokenMask. -/
def maskCalls (parser : ParserOracle) (k : Nat) (logits : List ℚ) : Nat :=
  (processTrace parser k logits).2.2

/-- The strict ranking order of the claim: a ranks before b when its logit
is strictly greater, or the logits tie and a has the smaller token id. -/
def lexGT (a b : TokenLogit) : Prop :=
  b.logit < a.logit ∨ (a.logit = b.logit ∧ a.tokenId < b.tokenId)

/-- Token t is the top-ranked token of the logits vector: highest logit,
ties broken by ascending token id. -/
def isTopRanked (logits : List ℚ) (t : Nat) : Prop :=
  t < logits.length ∧ ∀ j, j < logits.length → j ≠ t →
    logits.getD j 0 < logits.getD t 0 ∨
      (logits.getD j 0 = logits.getD t 0 ∧ t < j)

instance (logits : List ℚ) (t : Nat) : Decidable (isTopRanked logits t) := by
  unfold isTopRanked
  infer_instance

/-- The full parser session interface of parser.ts, as a state machine over
an opaque session-state type: isTokenAllowed/getTokenMask/isComplete are
pure reads, advance and reset transform the state. -/
structure ParserModel (σ : Type) where
  isTokenAllowed : σ → Nat → Bool
  getTokenMask : σ → List Nat
  advance : σ → Nat → σ
  reset : σ → σ
  isComplete : σ → Bool

/-- A GuidanceLogitsProcessor's mutable state: the parser session it owns
and the generatedTokens history array. -/
structure ProcessorState (σ : Type) where
  parserState : σ
  generatedTokens : List Nat

/-- Construction of a GuidanceLogitsProcessor: history starts empty. -/
def mkProcessor {σ : Type} (parserState : σ) : ProcessorState σ :=
  { parserState := parserState, generatedTokens := [] }

/-- Method onToken of processor.ts: append to the history and advance the
parser. -/
def onToken {σ : Type} (M : ParserModel σ) (s : ProcessorState σ) (tokenId : Nat) :
    ProcessorState σ :=
  { parserState := M.advance s.parserState tokenId
    generatedTokens := s.generatedTokens ++ [tokenId] }

/-- Method reset of processor.ts: empty the history and reset the parser
(keeping the original grammar). -/
def resetProcessor {σ : Type} (M : ParserModel σ) (s : ProcessorState σ) :
    ProcessorState σ :=
  { parserState := M.reset s.parserState, generatedTokens := [] }

/-- Method getGeneratedTokens of processor.ts: the current history value
(the aliasing-sensitive copy semantics are modelled separately on the
explicit heap below). -/
def getGeneratedTokens {σ : Type} (s : ProcessorState σ) : List Nat :=
  s.generatedTokens

/-- A sequence of onToken calls in order. -/
def runTokens {σ : Type} (M : ParserModel σ) (s : ProcessorState σ)
    (tokens : List Nat) : ProcessorState σ :=
  tokens.foldl (onToken M) s

/-- The observable operations a controller method performs on its own state
and its parser session, for the frame claims: the two parser reads, the two
parser mutators, and the two history mutations. -/
inductive CtrlOp where
  | isTokenAllowedOp (tokenId : Nat)
  | getTokenMaskOp
  | advanceOp (tokenId : Nat)
  | resetOp
  | appendHistoryOp (tokenId : Nat)
  | clearHistoryOp
deriving DecidableEq, Repr

/-- The operation trace of one process call, read off the source: one
isTokenAllowed query per candidate actually examined by the speculation
loop, then a single getTokenMask call exactly when the loop found no
allowed candidate.  The body of process touches neither advance, reset,
nor the history. -/
def processOps (parser : ParserOracle) (k : Nat) (logits : List ℚ) : List CtrlOp :=
  (queriedTokens parser k logits).map CtrlOp.isTokenAllowedOp ++
    (if maskCalls parser k logits = 1 then [CtrlOp.getTokenMaskOp] else [])

/-- Effect of one controller operation on the controller state: the two
read operations leave the state unchanged; the mutators act as in the
source. -/
def applyOp {σ : Type} (M : ParserModel σ) (s : ProcessorState σ) : CtrlOp → ProcessorState σ
  | .isTokenAllowedOp _ => s
  | .getTokenMaskOp => s
  | .advanceOp t => { s with parserState := M.advance s.parserState t }
  | .resetOp => { s with parserState := M.reset s.parserState }
  | .appendHistoryOp t => { s with generatedTokens := s.generatedTokens ++ [t] }
  | .clearHistoryOp => { s with generatedTokens := [] }

/-- Effect of a sequence of controller operations. -/
def applyOps {σ : Type} (M : ParserModel σ) (s : ProcessorState σ)
    (ops : List CtrlOp) : ProcessorState σ :=
  ops.foldl (applyOp M) s

/-- A heap of JS arrays, for the aliasing claim: cells indexed by
references. -/
structure ArrayHeap where
  cells : List (List Nat)
deriving DecidableEq, Repr

/-- Allocate a fresh array holding v; returns the new heap and the fresh
reference. -/
def allocArray (h : ArrayHeap) (v : List Nat) : ArrayHeap × Nat :=
  ({ cells := h.cells ++ [v] }, h.cells.length)

/-- Read the array a reference points to. -/
def readArray (h : ArrayHeap) (r : Nat) : List Nat :=
  h.cells.getD r []

/-- Mutate the array a reference points to (any caller-side mutation of the
returned array is some such in-place update). -/
def writeArray (h : ArrayHeap) (r : Nat) (v : List Nat) : ArrayHeap :=
  { cells := h.cells.set r v }

/-- Method getGeneratedTokens of processor.ts under JS reference semantics:
the spread copy allocates a fresh array whose contents are the history held
at the controller's internal reference; the internal reference itself is
never returned. -/
def getGeneratedTokensAlloc (h : ArrayHeap) (tokensRef : Nat) : ArrayHeap × Nat :=
  allocArray h (readArray h tokensRef)

lemma perm_insertDesc (x : TokenLogit) (l : List TokenLogit) :
    (insertDesc x l).Perm (x :: l) := by
  induction l with
  | nil => simp [insertDesc]
  | cons y ys ih =>
    by_cases h : y.logit ≤ x.logit
    · simp [insertDesc, h]
    · simp only [insertDesc, h, if_neg, ite_false]
      exact (ih.cons y).trans (List.Perm.swap x y ys)

lemma perm_sortDesc (l : List TokenLogit) : (sortDesc l).Perm l := by
  induction l with
  | nil => simp [sortDesc]
  | cons x xs ih =>
    exact (perm_insertDesc x (sortDesc xs)).trans (ih.cons x)

lemma mem_insertDesc {z x : TokenLogit} {l : List TokenLogit} :
    z ∈ insertDesc x l ↔ z = x ∨ z ∈ l := by
  rw [(perm_insertDesc x l).mem_iff, List.mem_cons]

lemma pairwise_insertDesc (x : TokenLogit) (l : List TokenLogit)
    (hl : l.Pairwise lexGT) (hx : ∀ y ∈ l, x.tokenId < y.tokenId) :
    (insertDesc x l).Pairwise lexGT := by
  induction l with
  | nil => simp [insertDesc, List.pairwise_singleton]
  | cons y ys ih =>
    rcases List.pairwise_cons.mp hl with ⟨hy, hys⟩
    by_cases h : y.logit ≤ x.logit
    · simp only [insertDesc, h, ite_true]
      refine List.pairwise_cons.mpr ⟨?_, hl⟩
      intro z hz
      rcases List.mem_cons.mp hz with rfl | hz'
      · rcases lt_or_eq_of_le h with hlt | heq
        · exact Or.inl hlt
        · exact Or.inr ⟨heq.symm, hx z (List.mem_cons_self z ys)⟩
      · rcases hy z hz' with hlt | ⟨heq, _⟩
        · exact Or.inl (lt_of_lt_of_le hlt h)
        · rcases lt_or_eq_of_le h with hlt2 | heq2
          · exact Or.inl (heq ▸ hlt2)
          · exact Or.inr ⟨heq2.symm.trans heq, hx z (List.mem_cons_of_mem y hz')⟩
    · simp only [insertDesc, h, ite_false]
      refine List.pairwise_cons.mpr ⟨?_, ih hys fun z hz => hx z (List.mem_cons_of_mem y hz)⟩
      intro z hz
      rcases mem_insertDesc.mp hz with rfl | hz'
      · exact Or.inl (lt_of_not_le h)
      · exact hy z hz'

lemma pairwise_sortDesc (l : List TokenLogit)
    (hl : l.Pairwise fun a b => a.tokenId < b.tokenId) :
    (sortDesc l).Pairwise lexGT := by
  induction l with
  | nil => simp [sortDesc]
  | cons x xs ih =>
    rcases List.pairwise_cons.mp hl with ⟨hx, hxs⟩
    refine pairwise_insertDesc x (sortDesc xs) (ih hxs) ?_
    intro y hy
    exact hx y ((perm_sortDesc xs).mem_iff.mp hy)

lemma pairwise_tokenId_indexedLogits (logits : List ℚ) :
    (indexedLogits logits).Pairwise fun a b => a.tokenId < b.tokenId := by
  unfold indexedLogits
  exact List.pairwise_map.mpr (List.pairwise_lt_range logits.length)

lemma length_indexedLogits (logits : List ℚ) :
    (indexedLogits logits).length = logits.length := by
  simp [indexedLogits]

lemma mem_indexedLogits {z : TokenLogit} {logits : List ℚ} :
    z ∈ indexedLogits logits ↔
      ∃ i, i < logits.length ∧ z = { tokenId := i, logit := logits.getD i 0 } := by
  simp only [indexedLogits, List.mem_map, List.mem_range]
  constructor
  · rintro ⟨i, hi, rfl⟩
    exact ⟨i, hi, rfl⟩
  · rintro ⟨i, hi, rfl⟩
    exact ⟨i, hi, rfl⟩

lemma head_sortDesc_topRanked (logits : List ℚ) (c : TokenLogit)
    (rest : List TokenLogit) (h : sortDesc (indexedLogits logits) = c :: rest) :
    isTopRanked logits c.tokenId ∧ c.logit = logits.getD c.tokenId 0 := by
  have hperm : (c :: rest).Perm (indexedLogits logits) := h ▸ perm_sortDesc (indexedLogits logits)
  have hpw : (c :: rest).Pairwise lexGT :=
    h ▸ pairwise_sortDesc (indexedLogits logits) (pairwise_tokenId_indexedLogits logits)
  have hcmem : c ∈ indexedLogits logits :=
    hperm.mem_iff.mp (List.mem_cons_self c rest)
  rcases mem_indexedLogits.mp hcmem with ⟨i, hi, hc⟩
  have hid : c.tokenId = i := congrArg TokenLogit.tokenId hc
  have hlog : c.logit = logits.getD c.tokenId 0 := by
    rw [hc]
  have hilen : c.tokenId < logits.length := hid ▸ hi
  refine ⟨⟨hilen, ?_⟩, hlog⟩
  intro j hj hji
  have hjmem : ({ tokenId := j, logit := logits.getD j 0 } : TokenLogit) ∈ c :: rest := by
    refine hperm.mem_iff.mpr (mem_indexedLogits.mpr ⟨j, hj, rfl⟩)
  rcases List.mem_cons.mp hjmem with heq | hjrest
  · exact absurd (congrArg TokenLogit.tokenId heq) hji
  · have hrel := List.rel_of_pairwise_cons hpw hjrest
    rcases hrel with hlt | ⟨heq, hid2⟩
    · exact Or.inl (hlog ▸ hlt)
    · exact Or.inr ⟨(hlog ▸ heq : logits.getD c.tokenId 0 = _).symm, hid2⟩

lemma isTopRanked_unique {logits : List ℚ} {t u : Nat}
    (ht : isTopRanked logits t) (hu : isTopRanked logits u) : t = u := by
  by_contra hne
  rcases ht.2 u hu.1 (fun h => hne h.symm) with h1 | ⟨he1, h1⟩
  · rcases hu.2 t ht.1 hne with h2 | ⟨he2, h2⟩
    · exact absurd (h1.trans h2) (lt_irrefl _)
    · exact absurd h1 (he2 ▸ lt_irrefl _)
  · rcases hu.2 t ht.1 hne with h2 | ⟨he2, h2⟩
    · exact absurd h2 (he1 ▸ lt_irrefl _)
    · exact absurd (h1.trans h2) (lt_irrefl _)

lemma length_maskAllExcept (logits : List ℚ) (t : Nat) :
    (maskAllExcept logits t).length = logits.length := by
  simp [maskAllExcept]

lemma getD_maskAllExcept (logits : List ℚ) (t i : Nat) (hi : i < logits.length) :
    (maskAllExcept logits t).getD i XFloat.negInf =
      if i = t then XFloat.val (logits.getD i 0) else XFloat.negInf := by
  simp [maskAllExcept, List.getD_eq_getElem?_getD, List.getElem?_map,
    List.getElem?_range, hi]

lemma length_applyBitmask (logits : List ℚ) (mask : List Nat) :
    (applyBitmask logits mask).length = logits.length := by
  simp [applyBitmask]

lemma getD_applyBitmask (logits : List ℚ) (mask : List Nat) (i : Nat)
    (hi : i < logits.length) :
    (applyBitmask logits mask).getD i XFloat.negInf =
      if mask.getD i 1 = 0 then XFloat.negInf else XFloat.val (logits.getD i 0) := by
  simp [applyBitmask, List.getD_eq_getElem?_getD, List.getElem?_map,
    List.getElem?_range, hi]

lemma queriedTokens_eq_takeThrough (parser : ParserOracle) (k : Nat) (logits : List ℚ) :
    queriedTokens parser k logits =
      takeThrough parser.isTokenAllowed (getTopK logits k) := by
  unfold queriedTokens processTrace
  cases h : (getTopK logits k).find? (fun c => parser.isTokenAllowed c.tokenId) <;> simp [h]

lemma takeThrough_append_map (allowed : Nat → Bool) (l : List TokenLogit) :
    ∃ rest, takeThrough allowed l ++ rest = l.map TokenLogit.tokenId := by
  induction l with
  | nil => exact ⟨[], rfl⟩
  | cons c cs ih =>
    by_cases h : allowed c.tokenId
    · exact ⟨cs.map TokenLogit.tokenId, by simp [takeThrough, h]⟩
    · rcases ih with ⟨rest, hr⟩
      exact ⟨rest, by simp [takeThrough, h, hr]⟩

lemma extract_ok_fields (tokenizer : TransformersTokenizer) (d : TokenizerData)
    (h : extractTokenizerData tokenizer = .ok d) :
    d.merges = (tokenizer.model.bind TransformersModel.merges).getD [] ∧
      d.model_type = detectModelType tokenizer ∧
      resolveVocab tokenizer = some d.vocab := by
  unfold extractTokenizerData at h
  cases hv : resolveVocab tokenizer with
  | none => rw [hv] at h; exact absurd h (by simp)
  | some v =>
    rw [hv] at h
    simp only [Except.ok.injEq] at h
    subst h
    exact ⟨rfl, rfl, rfl⟩

lemma applyOps_of_reads {σ : Type} (M : ParserModel σ) (s : ProcessorState σ)
    (ops : List CtrlOp)
    (h : ∀ op ∈ ops, (∃ t, op = CtrlOp.isTokenAllowedOp t) ∨ op = CtrlOp.getTokenMaskOp) :
    applyOps M s ops = s := by
  induction ops generalizing s with
  | nil => rfl
  | cons op rest ih =>
    have hop := h op (List.mem_cons_self op rest)
    have hstep : applyOp M s op = s := by
      rcases hop with ⟨t, rfl⟩ | rfl <;> rfl
    show applyOps M (applyOp M s op) rest = s
    rw [hstep]
    exact ih s fun o ho => h o (List.mem_cons_of_mem op ho)

lemma runTokens_generatedTokens {σ : Type} (M : ParserModel σ)
    (s : ProcessorState σ) (tokens : List Nat) :
    (runTokens M s tokens).generatedTokens = s.generatedTokens ++ tokens := by
  induction tokens generalizing s with
  | nil => simp [runTokens]
  | cons t ts ih =>
    show (runTokens M (onToken M s t) ts).generatedTokens = _
    rw [ih]
    simp [onToken]

/-- Oracle stub for witnesses: every token allowed, empty mask buffer. -/
def wAllowAll : ParserOracle where
  isTokenAllowed := fun _ => true
  tokenMask := []

/-- Oracle stub for witnesses: no token allowed, mask allows only id 0. -/
def wDenyAll : ParserOracle where
  isTokenAllowed := fun _ => false
  tokenMask := [1, 0]

/-- C1: for every logits vector and every speculationDepth k ≥ 1, if the
top-ranked token (highest logit, ties by ascending id) is allowed by
isTokenAllowed, then process returns a vector that is negative infinity
everywhere except that token's index, which keeps its original logit, and
getTokenMask is never invoked in that call. -/
theorem process_fast_path (parser : ParserOracle) (k : Nat) (logits : List ℚ)
    (t : Nat) (hk : 1 ≤ k) (ht : isTopRanked logits t)
    (ha : parser.isTokenAllowed t = true) :
    (process parser k logits).length = logits.length ∧
    (∀ i, i < logits.length →
      (process parser k logits).getD i XFloat.negInf =
        if i = t then XFloat.val (logits.getD i 0) else XFloat.negInf) ∧
    maskCalls parser k logits = 0 := by
  have hlen : (sortDesc (indexedLogits logits)).length = logits.length := by
    rw [(perm_sortDesc (indexedLogits logits)).length_eq, length_indexedLogits]
  cases hs : sortDesc (indexedLogits logits) with
  | nil =>
    rw [hs] at hlen
    simp only [List.length_nil] at hlen
    have := ht.1
    omega
  | cons c rest =>
    have hhead := head_sortDesc_topRanked logits c rest hs
    have hct : c.tokenId = t := isTopRanked_unique hhead.1 ht
    obtain ⟨k2, rfl⟩ : ∃ k2, k = k2 + 1 := ⟨k - 1, by omega⟩
    have htop : getTopK logits (k2 + 1) = c :: rest.take k2 := by
      rw [getTopK, hs, List.take_succ_cons]
    have hfind : (getTopK logits (k2 + 1)).find?
        (fun c => parser.isTokenAllowed c.tokenId) = some c := by
      rw [htop]
      apply List.find?_cons_of_pos
      show parser.isTokenAllowed c.tokenId = true
      rw [hct]
      exact ha
    have hpt : processTrace parser (k2 + 1) logits =
        (maskAllExcept logits c.tokenId,
         takeThrough parser.isTokenAllowed (getTopK logits (k2 + 1)), 0) := by
      unfold processTrace
      rw [hfind]
    refine ⟨?_, ?_, ?_⟩
    · simp only [process]
      rw [hpt]
      exact length_maskAllExcept logits c.tokenId
    · intro i hi
      simp only [process]
      rw [hpt]
      show (maskAllExcept logits c.tokenId).getD i XFloat.negInf = _
      rw [getD_maskAllExcept logits c.tokenId i hi, hct]
    · simp only [maskCalls]
      rw [hpt]

/-- Witness for C1 at a concrete input: oracle allowing everything,
logits [1, 2], depth 1, top-ranked token 1. -/
theorem process_fast_path_witness :
    (1 ≤ 1 ∧ isTopRanked [(1 : ℚ), 2] 1 ∧ wAllowAll.isTokenAllowed 1 = true) ∧
    ((process wAllowAll 1 [(1 : ℚ), 2]).length = ([(1 : ℚ), 2] : List ℚ).length ∧
      (∀ i, i < ([(1 : ℚ), 2] : List ℚ).length →
        (process wAllowAll 1 [(1 : ℚ), 2]).getD i XFloat.negInf =
          if i = 1 then XFloat.val (([(1 : ℚ), 2] : List ℚ).getD i 0)
          else XFloat.negInf) ∧
      maskCalls wAllowAll 1 [(1 : ℚ), 2] = 0) :=
  ⟨⟨Nat.le_refl 1, by decide, rfl⟩,
   process_fast_path wAllowAll 1 [(1 : ℚ), 2] 1 (Nat.le_refl 1) (by decide) rfl⟩

/-- C2: for every logits vector, if none of the top-k candidates is
allowed, process calls getTokenMask exactly once and returns the input with
every index whose mask entry is 0 set to negative infinity and every index
whose mask entry is 1 left at its original value. -/
theorem process_full_mask_path (parser : ParserOracle) (k : Nat) (logits : List ℚ)
    (hmiss : ∀ c ∈ getTopK logits k, parser.isTokenAllowed c.tokenId = false) :
    maskCalls parser k logits = 1 ∧
    (process parser k logits).length = logits.length ∧
    ∀ i, i < logits.length →
      (parser.tokenMask.getD i 1 = 0 →
        (process parser k logits).getD i XFloat.negInf = XFloat.negInf) ∧
      (parser.tokenMask.getD i 1 = 1 →
        (process parser k logits).getD i XFloat.negInf =
          XFloat.val (logits.getD i 0)) := by
  have hfind : (getTopK logits k).find?
      (fun c => parser.isTokenAllowed c.tokenId) = none := by
    apply List.find?_eq_none.mpr
    intro c hc
    simp [hmiss c hc]
  have hpt : processTrace parser k logits =
      (applyBitmask logits parser.tokenMask,
       takeThrough parser.isTokenAllowed (getTopK logits k), 1) := by
    unfold processTrace
    rw [hfind]
  refine ⟨?_, ?_, ?_⟩
  · simp only [maskCalls]
    rw [hpt]
  · simp only [process]
    rw [hpt]
    exact length_applyBitmask logits parser.tokenMask
  · intro i hi
    constructor
    · intro h0
      simp only [process]
      rw [hpt]
      show (applyBitmask logits parser.tokenMask).getD i XFloat.negInf = _
      rw [getD_applyBitmask _ _ i hi, h0]
      simp
    · intro h1
      simp only [process]
      rw [hpt]
      show (applyBitmask logits parser.tokenMask).getD i XFloat.negInf = _
      rw [getD_applyBitmask _ _ i hi, h1]
      simp

/-- Witness for C2 at a concrete input: oracle denying everything, depth 2,
logits [3, 4], mask allowing only token 0. -/
theorem process_full_mask_path_witness :
    (∀ c ∈ getTopK [(3 : ℚ), 4] 2, wDenyAll.isTokenAllowed c.tokenId = false) ∧
    (maskCalls wDenyAll 2 [(3 : ℚ), 4] = 1 ∧
     (process wDenyAll 2 [(3 : ℚ), 4]).length = ([(3 : ℚ), 4] : List ℚ).length ∧
     ∀ i, i < ([(3 : ℚ), 4] : List ℚ).length →
       (wDenyAll.tokenMask.getD i 1 = 0 →
         (process wDenyAll 2 [(3 : ℚ), 4]).getD i XFloat.negInf = XFloat.negInf) ∧
       (wDenyAll.tokenMask.getD i 1 = 1 →
         (process wDenyAll 2 [(3 : ℚ), 4]).getD i XFloat.negInf =
           XFloat.val (([(3 : ℚ), 4] : List ℚ).getD i 0))) :=
  ⟨fun _ _ => rfl, process_full_mask_path wDenyAll 2 [(3 : ℚ), 4] (fun _ _ => rfl)⟩

/-- C3: the candidate sequence process draws its isTokenAllowed queries
from is the top-k of the stable descending sort — strictly descending
logit with ties broken by ascending token id over a permutation of all
indices, the queried ids being a prefix of it — and two runs with
identical logits and identical oracle responses return identical results
and issue identical query sequences. -/
theorem topk_candidates_deterministic (logits : List ℚ) (k : Nat)
    (p1 p2 : ParserOracle)
    (hA : ∀ t, p1.isTokenAllowed t = p2.isTokenAllowed t)
    (hM : p1.tokenMask = p2.tokenMask) :
    (getTopK logits k).Pairwise lexGT ∧
    (sortDesc (indexedLogits logits)).Perm (indexedLogits logits) ∧
    getTopK logits k = (sortDesc (indexedLogits logits)).take k ∧
    (∃ rest, queriedTokens p1 k logits ++ rest =
      (getTopK logits k).map TokenLogit.tokenId) ∧
    process p1 k logits = process p2 k logits ∧
    queriedTokens p1 k logits = queriedTokens p2 k logits := by
  have hp : p1 = p2 := by
    obtain ⟨a1, m1⟩ := p1
    obtain ⟨a2, m2⟩ := p2
    have ha : a1 = a2 := funext hA
    have hm : m1 = m2 := hM
    rw [ha, hm]
  refine ⟨?_, perm_sortDesc _, rfl, ?_, by rw [hp], by rw [hp]⟩
  · exact (pairwise_sortDesc (indexedLogits logits)
      (pairwise_tokenId_indexedLogits logits)).sublist
      (List.take_sublist k (sortDesc (indexedLogits logits)))
  · rw [queriedTokens_eq_takeThrough]
    exact takeThrough_append_map p1.isTokenAllowed (getTopK logits k)

/-- Witness for C3 at a concrete input: two identical oracles on
logits [2, 1] at depth 1. -/
theorem topk_candidates_deterministic_witness :
    ((∀ t, wAllowAll.isTokenAllowed t = wAllowAll.isTokenAllowed t) ∧
      wAllowAll.tokenMask = wAllowAll.tokenMask) ∧
    ((getTopK [(2 : ℚ), 1] 1).Pairwise lexGT ∧
     (sortDesc (indexedLogits [(2 : ℚ), 1])).Perm (indexedLogits [(2 : ℚ), 1]) ∧
     getTopK [(2 : ℚ), 1] 1 = (sortDesc (indexedLogits [(2 : ℚ), 1])).take 1 ∧
     (∃ rest, queriedTokens wAllowAll 1 [(2 : ℚ), 1] ++ rest =
       (getTopK [(2 : ℚ), 1] 1).map TokenLogit.tokenId) ∧
     process wAllowAll 1 [(2 : ℚ), 1] = process wAllowAll 1 [(2 : ℚ), 1] ∧
     queriedTokens wAllowAll 1 [(2 : ℚ), 1] = queriedTokens wAllowAll 1 [(2 : ℚ), 1]) :=
  ⟨⟨fun _ => rfl, rfl⟩,
   topk_candidates_deterministic [(2 : ℚ), 1] 1 wAllowAll wAllowAll (fun _ => rfl) rfl⟩

/-- A fetched tokenizer.json document with non-empty merges but no declared
model type. -/
def bpeNoTypeJson : TokenizerJson :=
  { model := some { vocab := some [("a", 0)], merges := some ["h e"], type := none }
    added_tokens := none }

/-- C4 counterexample: on the fetched-document path, a descriptor with
non-empty merges and no declared type normalizes with model_type
"unknown", not "bpe", so model_type is not "bpe" exactly when merges are
non-empty on that path. -/
theorem modelType_fetched_counterexample :
    parseTokenizerJson bpeNoTypeJson =
      Except.ok
        { vocab := [("a", 0)], merges := ["h e"], added_tokens := none,
          model_type := "unknown" } ∧
    (["h e"] : List String) ≠ [] ∧ "unknown" ≠ "bpe" :=
  ⟨rfl, by decide, by decide⟩

/-- C4 as amended: the in-memory extraction path classifies model_type as
"bpe" exactly when the resulting merges are non-empty (and otherwise
"unknown"), while the fetched-document path copies the document's declared
model.type field, defaulting to "unknown" when absent. -/
theorem modelType_amended :
    (∀ (tokenizer : TransformersTokenizer) (d : TokenizerData),
      extractTokenizerData tokenizer = .ok d →
        ((d.model_type = "bpe" ↔ d.merges ≠ []) ∧
         (d.model_type = "bpe" ∨ d.model_type = "unknown"))) ∧
    (∀ (data : TokenizerJson) (d : TokenizerData),
      parseTokenizerJson data = .ok d →
        d.model_type = (data.model.bind TokenizerJsonModel.type).getD "unknown") := by
  constructor
  · intro tokenizer d h
    obtain ⟨hm, hmt, -⟩ := extract_ok_fields tokenizer d h
    rw [hm, hmt]
    cases hmm : tokenizer.model.bind TransformersModel.merges with
    | none => simp [detectModelType, hmm]
    | some ms =>
      cases ms with
      | nil => simp [detectModelType, hmm]
      | cons m rest => simp [detectModelType, hmm]
  · intro data d h
    unfold parseTokenizerJson at h
    cases hv : data.model.bind TokenizerJsonModel.vocab with
    | none =>
      rw [hv] at h
      exact absurd h (by simp)
    | some v =>
      rw [hv] at h
      simp only [Except.ok.injEq] at h
      subst h
      rfl

/-- An in-memory tokenizer with merges in its model and a top-level
vocabulary. -/
def wBpeTok : TransformersTokenizer :=
  { model := some { vocab := none, merges := some ["h e"] }
    vocab := some [("a", 0)]
    added_tokens := none
    getVocab := none }

/-- The normalized record extractTokenizerData produces for wBpeTok. -/
def wBpeData : TokenizerData :=
  { vocab := [("a", 0)], merges := ["h e"], added_tokens := some [],
    model_type := "bpe" }

/-- The normalized record parseTokenizerJson produces for bpeNoTypeJson. -/
def wUnknownData : TokenizerData :=
  { vocab := [("a", 0)], merges := ["h e"], added_tokens := none,
    model_type := "unknown" }

/-- Witness for the amended C4 at concrete inputs on both paths. -/
theorem modelType_amended_witness :
    extractTokenizerData wBpeTok = Except.ok wBpeData ∧
    ((wBpeData.model_type = "bpe" ↔ wBpeData.merges ≠ []) ∧
     (wBpeData.model_type = "bpe" ∨ wBpeData.model_type = "unknown")) ∧
    parseTokenizerJson bpeNoTypeJson = Except.ok wUnknownData ∧
    wUnknownData.model_type =
      (bpeNoTypeJson.model.bind TokenizerJsonModel.type).getD "unknown" :=
  ⟨rfl, modelType_amended.1 wBpeTok wBpeData rfl,
   rfl, modelType_amended.2 bpeNoTypeJson wUnknownData rfl⟩

/-- C5: extractTokenizerData resolves the vocabulary by trying, in order,
the getVocab accessor (always preferred), the nested model.vocab field,
then the top-level vocab field, and it throws the vocabulary-not-found
error if and only if none of the three sources is present. -/
theorem vocabulary_resolution_order (tokenizer : TransformersTokenizer) :
    (∀ f, tokenizer.getVocab = some f → resolveVocab tokenizer = some (f ())) ∧
    (tokenizer.getVocab = none →
      ∀ v, tokenizer.model.bind TransformersModel.vocab = some v →
        resolveVocab tokenizer = some (mapToRecord v)) ∧
    (tokenizer.getVocab = none →
      tokenizer.model.bind TransformersModel.vocab = none →
      ∀ v, tokenizer.vocab = some v →
        resolveVocab tokenizer = some (mapToRecord v)) ∧
    ((∃ e, extractTokenizerData tokenizer = .error e) ↔
      (tokenizer.getVocab = none ∧
       tokenizer.model.bind TransformersModel.vocab = none ∧
       tokenizer.vocab = none)) ∧
    (∀ e, extractTokenizerData tokenizer = .error e →
      e = BridgeError.vocabularyNotFoundError) ∧
    (∀ d, extractTokenizerData tokenizer = .ok d →
      resolveVocab tokenizer = some d.vocab) := by
  refine ⟨?_, ?_, ?_, ?_, ?_, ?_⟩
  · intro f hf
    unfold resolveVocab
    rw [hf]
  · intro hg v hv
    unfold resolveVocab
    rw [hg, hv]
  · intro hg hm v hv
    unfold resolveVocab
    rw [hg, hm, hv]
  · constructor
    · rintro ⟨e, he⟩
      unfold extractTokenizerData at he
      cases hr : resolveVocab tokenizer with
      | some v =>
        rw [hr] at he
        exact absurd he (by simp)
      | none =>
        unfold resolveVocab at hr
        cases hg : tokenizer.getVocab with
        | some f =>
          rw [hg] at hr
          exact absurd hr (by simp)
        | none =>
          rw [hg] at hr
          cases hm : tokenizer.model.bind TransformersModel.vocab with
          | some v =>
            rw [hm] at hr
            exact absurd hr (by simp)
          | none =>
            rw [hm] at hr
            cases hvv : tokenizer.vocab with
            | some v =>
              rw [hvv] at hr
              exact absurd hr (by simp)
            | none => exact ⟨rfl, rfl, rfl⟩
    · rintro ⟨hg, hm, hv⟩
      refine ⟨.vocabularyNotFoundError, ?_⟩
      unfold extractTokenizerData resolveVocab
      rw [hg, hm, hv]
  · intro e he
    unfold extractTokenizerData at he
    cases hr : resolveVocab tokenizer with
    | none =>
      rw [hr] at he
      exact (Except.error.inj he).symm
    | some v =>
      rw [hr] at he
      exact absurd he (by simp)
  · intro d hd
    unfold extractTokenizerData at hd
    cases hr : resolveVocab tokenizer with
    | none =>
      rw [hr] at hd
      exact absurd hd (by simp)
    | some v =>
      rw [hr] at hd
      simp only [Except.ok.injEq] at hd
      subst hd
      rfl

/-- A tokenizer exposing only the getVocab accessor. -/
def wGetVocabTok : TransformersTokenizer :=
  { model := none, vocab := none, added_tokens := none,
    getVocab := some fun _ => [("hello", 0)] }

/-- A tokenizer exposing no vocabulary source at all. -/
def wEmptyTok : TransformersTokenizer :=
  { model := none, vocab := none, added_tokens := none, getVocab := none }

/-- Witness for C5: the accessor path resolves, and the empty tokenizer
fails with the vocabulary-not-found error. -/
theorem vocabulary_resolution_order_witness :
    resolveVocab wGetVocabTok = some [("hello", 0)] ∧
    extractTokenizerData wEmptyTok =
      Except.error BridgeError.vocabularyNotFoundError := by
  constructor
  · exact (vocabulary_resolution_order wGetVocabTok).1 (fun _ => [("hello", 0)]) rfl
  · obtain ⟨e, he⟩ :=
      (vocabulary_resolution_order wEmptyTok).2.2.2.1.mpr ⟨rfl, rfl, rfl⟩
    have hev := (vocabulary_resolution_order wEmptyTok).2.2.2.2.1 e he
    rw [hev] at he
    exact he

/-- C6: convertGrammar is a pure total function over exactly the three
grammar tags: json_schema wraps the schema under the json_schema key,
regex wraps the pattern under the wire's regex key rx, and lark wraps the
grammar text with its start symbol, defaulting to "start" when omitted;
each case produces a single-element grammars list. -/
theorem convertGrammar_total_cases :
    (∀ (S : Type) (schema : S),
      convertGrammar (Grammar.json_schema schema) =
        { grammars := [GrammarSpecEntry.json_schema schema] }) ∧
    (∀ (S : Type) (pattern : String),
      convertGrammar (Grammar.regex pattern : Grammar S) =
        { grammars := [GrammarSpecEntry.rx pattern] }) ∧
    (∀ (S : Type) (grammar startSymbol : String),
      convertGrammar (Grammar.lark grammar (some startSymbol) : Grammar S) =
        { grammars := [GrammarSpecEntry.lark grammar startSymbol] }) ∧
    (∀ (S : Type) (grammar : String),
      convertGrammar (Grammar.lark grammar none : Grammar S) =
        { grammars := [GrammarSpecEntry.lark grammar "start"] }) ∧
    (∀ (S : Type) (g : Grammar S), (convertGrammar g).grammars.length = 1) :=
  ⟨fun _ _ => rfl, fun _ _ => rfl, fun _ _ _ => rfl, fun _ _ => rfl,
   fun _ g => by cases g <;> rfl⟩

/-- C7: on both normalization paths, every absent optional flag of an
added-token entry is defaulted rather than rejected: an entry supplying
only id and content normalizes to single_word, lstrip, rstrip and special
false and normalized true, supplied values are preserved, and both
extractTokenizerData and parseTokenizerJson normalize their added-token
entries with exactly this per-entry map. -/
theorem addedToken_defaulting_both_paths :
    (∀ (i : Nat) (content : String),
      normalizeAddedToken
        { id := i, content := content, single_word := none, lstrip := none,
          rstrip := none, normalized := none, special := none } =
        { id := i, content := content, single_word := false, lstrip := false,
          rstrip := false, normalized := true, special := false }) ∧
    (∀ (i : Nat) (content : String) (sw ls rs nm sp : Bool),
      normalizeAddedToken
        { id := i, content := content, single_word := some sw,
          lstrip := some ls, rstrip := some rs, normalized := some nm,
          special := some sp } =
        { id := i, content := content, single_word := sw, lstrip := ls,
          rstrip := rs, normalized := nm, special := sp }) ∧
    (∀ (v : Vocab) (ats : List AddedTokenIn),
      extractTokenizerData
        { model := none, vocab := some v, added_tokens := some ats,
          getVocab := none } =
        Except.ok
          { vocab := mapToRecord v, merges := [],
            added_tokens := some (ats.map normalizeAddedToken),
            model_type := "unknown" }) ∧
    (∀ (v : Vocab) (ats : List AddedTokenIn),
      parseTokenizerJson
        { model := some { vocab := some v, merges := none, type := none },
          added_tokens := some ats } =
        Except.ok
          { vocab := v, merges := [],
            added_tokens := some (ats.map normalizeAddedToken),
            model_type := "unknown" }) :=
  ⟨fun _ _ => rfl, fun _ _ _ _ _ _ _ => rfl, fun _ _ => rfl, fun _ _ => rfl⟩

/-- C8: the history observed through getGeneratedTokens after any sequence
of onToken calls made since construction or since the last reset is
exactly the sequence of token ids passed, in call order, and immediately
after reset it is empty. -/
theorem generatedTokens_call_order {σ : Type} (M : ParserModel σ) (p0 : σ)
    (s : ProcessorState σ) (tokens : List Nat) :
    getGeneratedTokens (runTokens M (mkProcessor p0) tokens) = tokens ∧
    getGeneratedTokens (runTokens M (resetProcessor M s) tokens) = tokens ∧
    getGeneratedTokens (resetProcessor M s) = [] := by
  refine ⟨?_, ?_, rfl⟩
  · show (runTokens M (mkProcessor p0) tokens).generatedTokens = tokens
    rw [runTokens_generatedTokens]
    simp [mkProcessor]
  · show (runTokens M (resetProcessor M s) tokens).generatedTokens = tokens
    rw [runTokens_generatedTokens]
    simp [resetProcessor]

/-- C9: getGeneratedTokens returns a fresh copy of the history: the
returned reference differs from the internal one, its contents equal the
history, and mutating the returned array leaves the internal history
unchanged, so a subsequent read of the internal array is unaffected. -/
theorem getGeneratedTokens_snapshot (h : ArrayHeap) (r : Nat)
    (hr : r < h.cells.length) :
    (getGeneratedTokensAlloc h r).2 ≠ r ∧
    readArray (getGeneratedTokensAlloc h r).1 (getGeneratedTokensAlloc h r).2 =
      readArray h r ∧
    ∀ v, readArray (writeArray (getGeneratedTokensAlloc h r).1
        (getGeneratedTokensAlloc h r).2 v) r = readArray h r := by
  refine ⟨?_, ?_, ?_⟩
  · show h.cells.length ≠ r
    omega
  · show (h.cells ++ [readArray h r]).getD h.cells.length [] = readArray h r
    rw [List.getD_eq_getElem?_getD, List.getElem?_concat_length]
    rfl
  · intro v
    show ((h.cells ++ [readArray h r]).set h.cells.length v).getD r [] =
      readArray h r
    rw [List.getD_eq_getElem?_getD, List.getElem?_set_ne (by omega),
      List.getElem?_append_left hr]
    rw [readArray, List.getD_eq_getElem?_getD]

/-- A one-cell heap for the snapshot witness. -/
def wHeap : ArrayHeap := { cells := [[1, 2]] }

/-- Witness for C9 on a concrete heap. -/
theorem getGeneratedTokens_snapshot_witness :
    (0 : Nat) < wHeap.cells.length ∧
    ((getGeneratedTokensAlloc wHeap 0).2 ≠ 0 ∧
     readArray (getGeneratedTokensAlloc wHeap 0).1
         (getGeneratedTokensAlloc wHeap 0).2 = readArray wHeap 0 ∧
     ∀ v, readArray (writeArray (getGeneratedTokensAlloc wHeap 0).1
         (getGeneratedTokensAlloc wHeap 0).2 v) 0 = readArray wHeap 0) :=
  ⟨by decide, getGeneratedTokens_snapshot wHeap 0 (by decide)⟩

/-- C10: a process call performs only the two parser read operations,
isTokenAllowed queries and at most one getTokenMask, and applying its
operation trace to any controller state leaves both the parser session
state and the generated-token history unchanged. -/
theorem process_reads_only {σ : Type} (M : ParserModel σ) (s : ProcessorState σ)
    (parser : ParserOracle) (k : Nat) (logits : List ℚ) :
    (∀ op ∈ processOps parser k logits,
      (∃ t, op = CtrlOp.isTokenAllowedOp t) ∨ op = CtrlOp.getTokenMaskOp) ∧
    applyOps M s (processOps parser k logits) = s := by
  have hread : ∀ op ∈ processOps parser k logits,
      (∃ t, op = CtrlOp.isTokenAllowedOp t) ∨ op = CtrlOp.getTokenMaskOp := by
    intro op hop
    unfold processOps at hop
    rcases List.mem_append.mp hop with hmap | hite
    · rcases List.mem_map.mp hmap with ⟨t, _, rfl⟩
      exact Or.inl ⟨t, rfl⟩
    · by_cases hm : maskCalls parser k logits = 1
      · rw [if_pos hm] at hite
        rw [List.mem_singleton.mp hite]
        exact Or.inr rfl
      · rw [if_neg hm] at hite
        exact absurd hite (List.not_mem_nil op)
  exact ⟨hread, applyOps_of_reads M s _ hread⟩
